import Mathlib

/-!
Shallow embedding of the Sair default lowering attributes pass
(src/transforms/default_lowering_attributes.cc) together with the parts of
the mapping algebra, storage analysis and sequence analysis that the pass
relies on. Components whose implementation files are not under src/ (only
their headers or callers are) are modelled from the spec; their doc
comments start with "Modelled from the spec" and name the missing symbol.
-/

namespace Sair

/-- Modelled from the spec: a mapping expression denotes how one output
dimension is derived from input dimensions — an identity reference to one
input dimension, a "none" placeholder (unused), or an "unknown" placeholder
(to be resolved later). Mirrors MappingDimExpr, MappingNoneExpr and
MappingUnknownExpr of sair_attributes (implementation absent from src/). -/
inductive MappingExpr where
  | dim (i : Nat)
  | noneExpr
  | unknownExpr
deriving DecidableEq, Inhabited

/-- Indicates whether the expression is a concrete dimension reference. -/
def MappingExpr.isDim : MappingExpr → Bool
  | .dim _ => true
  | _ => false

/-- Modelled from the spec: a mapping is an ordered list of mapping
expressions, one per dimension of a target space, together with the size of
the input ("use") domain the expressions may reference. Mirrors MappingAttr
of sair_attributes (implementation absent from src/). -/
structure MappingAttr where
  useDomainSize : Nat
  dims : List MappingExpr
deriving DecidableEq, Inhabited

/-- The list of natural numbers c, c+1, ..., c+n-1. -/
def natsFrom (c n : Nat) : List Nat :=
  match n with
  | 0 => []
  | n + 1 => c :: natsFrom (c + 1) n

/-- First index of an expression in a list, if present. -/
def idxOf? (e : MappingExpr) : List MappingExpr → Option Nat
  | [] => Option.none
  | a :: l => if a = e then some 0 else (idxOf? e l).map (· + 1)

/-- First index of a number in a list of numbers, if present. -/
def natIdxOf? (x : Nat) : List Nat → Option Nat
  | [] => Option.none
  | a :: l => if a = x then some 0 else (natIdxOf? x l).map (· + 1)

/-- Modelled from the spec: MinDomainSize returns the smallest input-domain
size for which the mapping is meaningful (highest referenced input index
plus one). Implementation of MappingAttr::MinDomainSize is absent from
src/. -/
def MappingAttr.MinDomainSize (m : MappingAttr) : Nat :=
  m.dims.foldr
    (fun e acc =>
      match e with
      | .dim i => max (i + 1) acc
      | _ => acc)
    0

/-- Substitution of the input dimensions of an expression by the
expressions of another mapping; a reference resolving past the available
expressions yields the "none" sentinel. -/
def substExpr (dims : List MappingExpr) : MappingExpr → MappingExpr
  | .dim i => dims.getD i .noneExpr
  | .noneExpr => .noneExpr
  | .unknownExpr => .unknownExpr

/-- Modelled from the spec: Compose(M, N) applies pointwise substitution of
M's expressions into N's references; it resolves to the "none" sentinel
exactly when an expression of N resolves to a dimension that M marks
"none". Implementation of MappingAttr::Compose is absent from src/. -/
def MappingAttr.Compose (m n : MappingAttr) : MappingAttr :=
  ⟨m.useDomainSize, n.dims.map (substExpr m.dims)⟩

/-- Modelled from the spec: Inverse walks producer→consumer relations
backward; an input dimension referenced by exactly one output expression
inverts to that position, and a dimension not referenced is left
"unknown". Implementation of MappingAttr::Inverse is absent from src/. -/
def MappingAttr.Inverse (m : MappingAttr) : MappingAttr :=
  ⟨m.dims.length,
   (natsFrom 0 m.useDomainSize).map fun i =>
     match idxOf? (.dim i) m.dims with
     | some j => .dim j
     | Option.none => .unknownExpr⟩

/-- Replaces every non-dimension expression with a fresh input dimension,
allocating fresh dimensions from `c` upward. -/
def fillHoles : List MappingExpr → Nat → List MappingExpr
  | [], _ => []
  | .dim i :: rest, c => .dim i :: fillHoles rest c
  | _ :: rest, c => .dim c :: fillHoles rest (c + 1)

/-- Number of non-dimension ("none"/"unknown") expressions of a list. -/
def countHoles (l : List MappingExpr) : Nat :=
  l.countP (fun e => !e.isDim)

/-- Modelled from the spec: MakeSurjective fills "unknown"/"none" holes by
inventing fresh input dimensions so that every output dimension is
covered. Implementation of MappingAttr::MakeSurjective is absent from
src/. -/
def MappingAttr.MakeSurjective (m : MappingAttr) : MappingAttr :=
  ⟨m.useDomainSize + countHoles m.dims, fillHoles m.dims m.useDomainSize⟩

/-- Modelled from the spec: a mapping surjects onto its target space when
every output dimension is covered by a concrete input dimension.
Implementation of MappingAttr::IsSurjective is absent from src/. -/
def MappingAttr.IsSurjective (m : MappingAttr) : Bool :=
  m.dims.all MappingExpr.isDim

/-- Modelled from the spec: unification of two expressions — identical
concrete expressions match and any expression unifies with "unknown";
a concrete conflict is a unification failure, represented by the "unknown"
sentinel here (the pass only unifies conflict-free mappings). -/
def unifyExpr : MappingExpr → MappingExpr → MappingExpr
  | .unknownExpr, e => e
  | e, .unknownExpr => e
  | e, f => if e = f then e else .unknownExpr

/-- Modelled from the spec: Unify merges two mappings expression by
expression. Implementation of MappingAttr::Unify is absent from src/. -/
def MappingAttr.Unify (m n : MappingAttr) : MappingAttr :=
  ⟨max m.useDomainSize n.useDomainSize, List.zipWith unifyExpr m.dims n.dims⟩

/-- Modelled from the spec: Resize truncates the mapping or pads it with
"none" expressions to reach the requested number of output dimensions.
Implementation of MappingAttr::Resize is absent from src/. -/
def MappingAttr.Resize (m : MappingAttr) (n : Nat) : MappingAttr :=
  if n ≤ m.dims.length then ⟨m.useDomainSize, m.dims.take n⟩
  else ⟨m.useDomainSize, m.dims ++ List.replicate (n - m.dims.length) .noneExpr⟩

/-- Modelled from the spec: the identity mapping over n dimensions.
Implementation of MappingAttr::GetIdentity is absent from src/. -/
def MappingAttr.GetIdentity (n : Nat) : MappingAttr :=
  ⟨n, (natsFrom 0 n).map .dim⟩

/-- Modelled from the spec: ShiftRight shifts every referenced input
dimension up by an offset, extending the use domain accordingly.
Implementation of MappingAttr::ShiftRight is absent from src/. -/
def MappingAttr.ShiftRight (m : MappingAttr) (k : Nat) : MappingAttr :=
  ⟨m.useDomainSize + k,
   m.dims.map fun e =>
     match e with
     | .dim i => .dim (i + k)
     | e => e⟩

/-- Modelled from the spec: appends output expressions to a mapping.
Implementation of MappingAttr::AddSuffix is absent from src/. -/
def MappingAttr.AppendExprs (m : MappingAttr) (l : List MappingExpr) : MappingAttr :=
  ⟨m.useDomainSize, m.dims ++ l⟩

/-- Modelled from the spec: prepends output expressions to a mapping.
Implementation of MappingAttr::AddPrefix is absent from src/. -/
def MappingAttr.PrependExprs (m : MappingAttr) (l : List MappingExpr) : MappingAttr :=
  ⟨m.useDomainSize, l ++ m.dims⟩

/-- Modelled from the spec: MakeFullySpecified converts every remaining
"unknown" expression to an explicit "none". Implementation of
MappingAttr::MakeFullySpecified is absent from src/. -/
def MappingAttr.MakeFullySpecified (m : MappingAttr) : MappingAttr :=
  ⟨m.useDomainSize,
   m.dims.map fun e =>
     match e with
     | .unknownExpr => .noneExpr
     | e => e⟩

/-- A loop name: either a user-written name or a freshly minted one.
Modelled from the spec: LoopFusionAnalysis::GetFreshLoopName
deterministically mints loop names not colliding with existing ones using
a monotonically increasing counter (loop_nest.cc absent from src/); fresh
names are kept in their own constructor so non-collision is structural. -/
inductive LoopName where
  | named (s : String)
  | fresh (n : Nat)
deriving DecidableEq, Inhabited

/-- One entry of a loop-nest attribute: a loop name together with the
iteration expression of the loop (LoopAttr of sair_attributes). -/
structure LoopAttr where
  name : LoopName
  iter : MappingExpr
deriving DecidableEq, Inhabited

/-- Iteration space of an operation (loop_nest.h lines 44-75): names of
the loops the operation is nested in, and the mapping from the operation
domain to the iteration space (whose first num_loops dimensions are the
loops). -/
structure IterationSpace where
  loopNames : List LoopName
  mapping : MappingAttr
deriving Inhabited

/-- Length of the longest shared prefix of two name lists. -/
def commonPrefixLen : List LoopName → List LoopName → Nat
  | a :: as, b :: bs => if a = b then commonPrefixLen as bs + 1 else 0
  | _, _ => 0

/-- Modelled from the spec: the number of loops common to two iteration
spaces, identified by name; nested loop nests share a common prefix.
Implementation of IterationSpace::NumCommonLoops is absent from src/. -/
def NumCommonLoops (a b : IterationSpace) : Nat :=
  commonPrefixLen a.loopNames b.loopNames

/-- Modelled from the spec: the IterationSpaceAnalysis collaborator,
abstracted as its two query functions — Get(op), returning the cached
iteration space of an operation, and TranslateMapping(from, to, map),
rewriting a mapping over from's domain into one over to's iteration space
(iteration_space computation absent from src/; the pass only consumes the
answers of these queries). -/
structure IterationSpaceAnalysis where
  get : Nat → IterationSpace
  translate : Nat → Nat → MappingAttr → MappingAttr

/-- Memory space of a value: per-iteration register or named buffer
memory. -/
inductive Space where
  | register
  | memory
deriving DecidableEq, Inhabited

/-- Per-value storage record (storage.h, absent from src/, modelled from
the spec): an optional memory space tag, an optional buffer name and an
optional layout mapping from the value's iteration space to the buffer
dimensions. -/
structure ValueStorage where
  space : Option Space
  bufferName : Option Nat
  layout : Option MappingAttr
deriving DecidableEq, Inhabited

/-- Modelled from the spec: a named buffer owns a rank, an is_external
flag (caller-allocated, rank fixed) and the loop nest it is shared
across (storage.h absent from src/). -/
structure Buffer where
  rank : Nat
  isExt : Bool
  loopNest : List LoopName
deriving DecidableEq, Inhabited

/-- State of the storage analysis: per-value storages, named buffers and
the fresh-buffer-name counter. Newest bindings are consed in front. -/
structure StorageState where
  storages : List (Nat × ValueStorage)
  buffers : List (Nat × Buffer)
  nextBufferId : Nat
deriving DecidableEq, Inhabited

/-- Lookup in an association list of storages. -/
def lookupStorage : List (Nat × ValueStorage) → Nat → Option ValueStorage
  | [], _ => Option.none
  | p :: l, v => if p.1 = v then some p.2 else lookupStorage l v

/-- Lookup in an association list of buffers. -/
def lookupBuffer : List (Nat × Buffer) → Nat → Option Buffer
  | [], _ => Option.none
  | p :: l, v => if p.1 = v then some p.2 else lookupBuffer l v

/-- StorageAnalysis::GetStorage — the storage of a value, defaulting to
the fully unset record. -/
def getStorage (st : StorageState) (v : Nat) : ValueStorage :=
  (lookupStorage st.storages v).getD ⟨Option.none, Option.none, Option.none⟩

/-- StorageAnalysis::GetBuffer — the buffer registered under a name. -/
def getBuffer (st : StorageState) (name : Nat) : Buffer :=
  (lookupBuffer st.buffers name).getD ⟨0, false, []⟩

/-- Stores a value's storage record. -/
def setStorage (st : StorageState) (v : Nat) (s : ValueStorage) : StorageState :=
  ⟨(v, s) :: st.storages, st.buffers, st.nextBufferId⟩

/-- Modelled from the spec: StorageAnalysis::CreateBuffer (storage.cc
absent from src/) assigns a fresh buffer name to the value, records the
value as living in buffer memory and registers an internal rank-0 buffer
associated with the given loop nest. -/
def CreateBuffer (st : StorageState) (v : Nat) (loopNames : List LoopName) : StorageState :=
  let name := st.nextBufferId
  let s := getStorage st v
  ⟨(v, { s with space := some Space.memory, bufferName := some name }) :: st.storages,
   (name, ⟨0, false, loopNames⟩) :: st.buffers,
   st.nextBufferId + 1⟩

/-- Modelled from the spec: StorageAnalysis::AddDimensionsToBuffer
(storage.cc absent from src/) grows the rank of an internal buffer to
match the extended layout. -/
def AddDimensionsToBuffer (st : StorageState) (name : Nat) (newLayout : MappingAttr) :
    StorageState :=
  let b := getBuffer st name
  ⟨st.storages, (name, { b with rank := newLayout.dims.length }) :: st.buffers,
   st.nextBufferId⟩

/-- One value operand of an operation (sair_op_interfaces, declarations
only in src/): the owning operation, the accessed value, the access
mapping from the owner's domain to the producer's domain, and whether the
element type of the operand is an index type. -/
structure ValueOperand where
  owner : Nat
  value : Nat
  mapping : MappingAttr
  isIndexElementType : Bool
deriving DecidableEq, Inhabited

/-- A layout re-expressed in the operation's own loop names
(NamedMappingAttr of sair_attributes). -/
structure NamedMapping where
  names : List LoopName
  mapping : MappingAttr
deriving DecidableEq, Inhabited

/-- A committed storage attribute (BufferAttr of sair_attributes): memory
space, buffer name and layout. -/
structure BufferAttr where
  space : Option Space
  bufferName : Option Nat
  layout : Option NamedMapping
deriving DecidableEq, Inhabited

/-- One Sair operation: compute flag, domain size, optional loop-nest
attribute, value-typed results, value operands and the committed storage
attributes of the results. -/
structure SairOpData where
  isCompute : Bool
  domainSize : Nat
  loopNest : Option (List LoopAttr)
  results : List Nat
  operands : List ValueOperand
  storageAttrs : List (Option BufferAttr)
deriving DecidableEq, Inhabited

/-- A Sair program: its operations in program (walk) order. -/
structure Program where
  ops : List SairOpData
deriving DecidableEq, Inhabited

/-- The operation at a given index. -/
def opAt (prog : Program) (i : Nat) : SairOpData :=
  prog.ops.getD i default

/-- Index of the operation defining a value
(operand.value().getDefiningOp()). -/
def producerOf (prog : Program) (v : Nat) : Nat :=
  (prog.ops.findIdx? (fun op => op.results.contains v)).getD 0

/-- All value operands of the program, in walk order. -/
def Program.allOperands (prog : Program) : List ValueOperand :=
  prog.ops.foldr (fun op acc => op.operands ++ acc) []

/-- All value-typed results of the program, in walk order. -/
def Program.allResults (prog : Program) : List Nat :=
  prog.ops.foldr (fun op acc => op.results ++ acc) []

/-- Errors emitted by the pass, each attributed to an operation index
where the source attributes a diagnostic to an operation. -/
inductive StorageError where
  | indexStorage (op : Nat)
  | extBufferRank (op : Nat)
  | expectedLoopNest (op : Nat)
  | unableToGenerate
  | assertionFailure
deriving DecidableEq, Inhabited

/-- The diagnostic text of each error, as written in the source. -/
def errMessage : StorageError → String
  | .indexStorage _ =>
      "cannot generate default storage for multi-dimensional index values"
  | .extBufferRank _ =>
      "specifying value layout would require to increase the rank of an external buffer"
  | .expectedLoopNest _ => "expected a loop-nest attribute"
  | .unableToGenerate =>
      "unable to generate storage attributes, see other errors for more information"
  | .assertionFailure => "assertion failure"

/-- Translation of FitsInRegisters (default_lowering_attributes.cc lines
81-91): the operand can use the value from registers when the translated
access mapping only references loops common to the owner and the defining
operation. -/
def FitsInRegisters (prog : Program) (an : IterationSpaceAnalysis)
    (od : ValueOperand) : Bool :=
  let defOp := producerOf prog od.value
  let mapping := an.translate od.owner defOp (od.mapping.Resize (opAt prog defOp).domainSize)
  let commonLoops := NumCommonLoops (an.get od.owner) (an.get defOp)
  decide (mapping.MinDomainSize ≤ commonLoops)

/-- Translation of CreateBufferIfNeeded (default_lowering_attributes.cc
lines 208-226): assigns a buffer name to the operand's value when the
value has no memory space yet and cannot fit in registers; index-typed
elements are a hard error. -/
def CreateBufferIfNeeded (od : ValueOperand) (an : IterationSpaceAnalysis)
    (prog : Program) (st : StorageState) : Except StorageError StorageState :=
  let storage := getStorage st od.value
  if storage.space.isSome then .ok st
  else if FitsInRegisters prog an od then .ok st
  else if od.isIndexElementType then
    .error (.indexStorage (producerOf prog od.value))
  else
    .ok (CreateBuffer st od.value (an.get od.owner).loopNames)

/-- Translation of InitializeStorage (default_lowering_attributes.cc lines
96-126): a value still missing a memory space is assigned register space;
a value still missing a layout is assigned an all-"unknown" layout over
the value's iteration-space mapping, with one entry per dimension of the
assigned buffer when a buffer is known and zero entries otherwise. -/
def InitStorage (v : Nat) (an : IterationSpaceAnalysis) (prog : Program)
    (st : StorageState) : StorageState :=
  let storage := getStorage st v
  let storage :=
    if storage.space.isNone then { storage with space := some Space.register }
    else storage
  let storage :=
    if storage.layout.isNone then
      let numDimensions :=
        match storage.bufferName with
        | some name => (getBuffer st name).rank
        | Option.none => 0
      let iterSpace := an.get (producerOf prog v)
      { storage with
        layout := some ⟨iterSpace.mapping.dims.length,
                        List.replicate numDimensions MappingExpr.unknownExpr⟩ }
    else storage
  setStorage st v storage

/-- Modelled from the spec: CommunicationVolume (storage.cc absent from
src/) — the sub-mapping of the operand's access restricted to the
dimensions not already common between producer and consumer iteration
spaces, i.e. the dimensions across which the value must be visible in
memory. -/
def CommunicationVolume (operandRank : Nat) (defIter useIter : IterationSpace) :
    MappingAttr :=
  let common := NumCommonLoops defIter useIter
  ⟨operandRank, ((natsFrom 0 operandRank).drop common).map .dim⟩

/-- The communication volume of an operand, as computed by ExtendLayout
(default_lowering_attributes.cc lines 142-144). -/
def commVolumeOf (od : ValueOperand) (an : IterationSpaceAnalysis) (prog : Program) :
    MappingAttr :=
  CommunicationVolume od.mapping.dims.length
    (an.get (producerOf prog od.value)) (an.get od.owner)

/-- The value layout composed through the producer's domain-to-loops
mapping, inverted, and composed with the operand's communication volume
(default_lowering_attributes.cc lines 146-149). -/
def layoutToCommVolume (od : ValueOperand) (an : IterationSpaceAnalysis)
    (prog : Program) (st : StorageState) : MappingAttr :=
  let storage := getStorage st od.value
  let defIter := an.get (producerOf prog od.value)
  ((defIter.mapping.Compose (storage.layout.getD ⟨0, []⟩)).Inverse).Compose
    (commVolumeOf od an prog)

/-- The extended layout of ExtendLayout (default_lowering_attributes.cc
lines 165-171): make the layout-to-communication-volume mapping
surjective, then permute so that the newly introduced dimensions become
the buffer's leading dimensions. -/
def extendedLayoutFor (ltcv : MappingAttr) (rank : Nat) : MappingAttr :=
  let ext := ltcv.MakeSurjective
  let k := ext.useDomainSize - rank
  (((MappingAttr.GetIdentity rank).ShiftRight k).AppendExprs
      (MappingAttr.GetIdentity k).dims).Compose ext

/-- The unified new layout built by ExtendLayout
(default_lowering_attributes.cc lines 165-183): invert-and-make-surjective
the composed mapping, permute new dimensions to the front, and unify with
the old layout shifted by the new leading dimensions. -/
def extendLayoutNewLayout (od : ValueOperand) (an : IterationSpaceAnalysis)
    (prog : Program) (st : StorageState) (name : Nat) : MappingAttr :=
  let defIter := an.get (producerOf prog od.value)
  let commVol := commVolumeOf od an prog
  let ltcv := layoutToCommVolume od an prog st
  let buffer := getBuffer st name
  let extLayout := extendedLayoutFor ltcv buffer.rank
  let numNewDims := ltcv.MakeSurjective.useDomainSize - buffer.rank
  let extOldLayout :=
    ((getStorage st od.value).layout.getD ⟨0, []⟩).PrependExprs
      (List.replicate numNewDims MappingExpr.noneExpr)
  ((defIter.mapping.Inverse.Compose commVol).Compose extLayout.Inverse).Unify extOldLayout

/-- The state update of ExtendLayout's extension branch
(default_lowering_attributes.cc lines 184-192): grow the buffer and merge
the new layout into the value's storage. -/
def extendLayoutApply (od : ValueOperand) (an : IterationSpaceAnalysis)
    (prog : Program) (st : StorageState) (name : Nat) : StorageState :=
  let newLayout := extendLayoutNewLayout od an prog st name
  setStorage (AddDimensionsToBuffer st name newLayout) od.value
    { getStorage st od.value with layout := some newLayout }

/-- Translation of ExtendLayout (default_lowering_attributes.cc lines
130-194): adds new dimensions to the operand value's layout so that the
operand has access to the data it needs. -/
def ExtendLayout (od : ValueOperand) (an : IterationSpaceAnalysis)
    (prog : Program) (st : StorageState) : Except StorageError StorageState :=
  let storage := getStorage st od.value
  let ltcv := layoutToCommVolume od an prog st
  if ltcv.IsSurjective then .ok st
  else
    match storage.bufferName with
    | Option.none => .error .assertionFailure
    | some name =>
      if (getBuffer st name).isExt then
        .error (.extBufferRank (producerOf prog od.value))
      else .ok (extendLayoutApply od an prog st name)

/-- Translation of MakeLayoutFullySpecified (default_lowering_attributes.cc
lines 197-205): converts the remaining "unknown" layout entries of a value
to explicit "none" entries. -/
def MakeLayoutFullySpecifiedOn (v : Nat) (st : StorageState) : StorageState :=
  let storage := getStorage st v
  setStorage st v { storage with layout := storage.layout.map MappingAttr.MakeFullySpecified }

/-- The buffer attribute committed for one result (CommitStorage body,
default_lowering_attributes.cc lines 55-75): the layout is re-expressed in
the operation's own loop names, keeping only the loops with nonzero
mapping support. -/
def makeBufferAttr (an : IterationSpaceAnalysis) (st : StorageState) (opId v : Nat) :
    BufferAttr :=
  let storage := getStorage st v
  let iterSpace := an.get opId
  let layout :=
    match storage.layout with
    | Option.none => Option.none
    | some l =>
      let indexedLoops :=
        (natsFrom 0 l.useDomainSize).filter (fun i => l.dims.contains (.dim i))
      let renames :=
        (natsFrom 0 iterSpace.mapping.dims.length).map fun loop =>
          match natIdxOf? loop indexedLoops with
          | some j => MappingExpr.dim j
          | Option.none => MappingExpr.noneExpr
      let loopNames := indexedLoops.map (fun loop => iterSpace.loopNames.getD loop default)
      some ⟨loopNames, MappingAttr.Compose ⟨loopNames.length, renames⟩ l⟩
  ⟨storage.space, storage.bufferName, layout⟩

/-- Translation of CommitStorage (default_lowering_attributes.cc lines
49-78): writes the storage information inferred by the analysis onto the
storage attributes of a compute operation's results. -/
def CommitStorage (an : IterationSpaceAnalysis) (st : StorageState) (opId : Nat)
    (op : SairOpData) : SairOpData :=
  { op with storageAttrs := op.results.map (fun v => some (makeBufferAttr an st opId v)) }

/-- Phase 1 of DefaultStorage::RunOnProgram (lines 260-270): walk every
operand and assign buffer names to values that will not fit in
registers. -/
def bufferAssignmentPhase (prog : Program) (an : IterationSpaceAnalysis)
    (st : StorageState) : Except StorageError StorageState :=
  prog.allOperands.foldlM (fun s od => CreateBufferIfNeeded od an prog s) st

/-- Phase 2 of DefaultStorage::RunOnProgram (lines 273-279): assign all
remaining values to registers and initialize layout fields. -/
def initStoragePhase (prog : Program) (an : IterationSpaceAnalysis)
    (st : StorageState) : StorageState :=
  prog.allResults.foldl (fun s v => InitStorage v an prog s) st

/-- Phase 3 of DefaultStorage::RunOnProgram (lines 282-291): add layout
dimensions when necessary. -/
def extendLayoutPhase (prog : Program) (an : IterationSpaceAnalysis)
    (st : StorageState) : Except StorageError StorageState :=
  prog.allOperands.foldlM (fun s od => ExtendLayout od an prog s) st

/-- Phase 4 of DefaultStorage::RunOnProgram (lines 297-303): convert
unknown layout expressions to none expressions. -/
def makeFullySpecifiedPhase (prog : Program) (st : StorageState) : StorageState :=
  prog.allResults.foldl (fun s v => MakeLayoutFullySpecifiedOn v s) st

/-- The four storage-inference phases of DefaultStorage::RunOnProgram that
precede verification, chained with failure propagation. -/
def storagePhases (an : IterationSpaceAnalysis) (prog : Program)
    (st : StorageState) : Except StorageError StorageState := do
  let st1 ← bufferAssignmentPhase prog an st
  let st2 := initStoragePhase prog an st1
  let st3 ← extendLayoutPhase prog an st2
  pure (makeFullySpecifiedPhase prog st3)

/-- Modelled from the spec: the step-5 verifiers
(StorageAnalysis::VerifyAndMinimizeBufferLoopNests, which may shrink
buffer loop nests, and VerifyValuesNotOverwritten), whose implementations
in storage.cc are absent from src/; the pass only branches on their
success, so they are abstracted as functions quantified over in the
theorems. -/
structure Verifiers where
  verifyAndMinimize : StorageState → Option StorageState
  verifyNotOverwritten : StorageState → Bool

/-- The commit walk of DefaultStorage::RunOnProgram (lines 315-320):
CommitStorage on every compute operation. -/
def commitOps (an : IterationSpaceAnalysis) (st : StorageState) :
    List SairOpData → Nat → List SairOpData
  | [], _ => []
  | op :: rest, i =>
    (if op.isCompute then CommitStorage an st i op else op) :: commitOps an st rest (i + 1)

/-- The committed program: storage attributes written onto every compute
operation. -/
def commitPhase (prog : Program) (an : IterationSpaceAnalysis) (st : StorageState) :
    Program :=
  ⟨commitOps an st prog.ops 0⟩

/-- Translation of DefaultStorage::RunOnProgram (default_lowering_attributes.cc
lines 253-322): run the four inference phases, verify and minimize buffer
loop nests, check for overwrites, and only then commit storage attributes
onto the operations; on any failure the program's attributes are left
untouched and the error is reported. -/
def RunOnProgram (V : Verifiers) (an : IterationSpaceAnalysis) (prog : Program)
    (st : StorageState) : Option StorageError × Program :=
  match storagePhases an prog st with
  | .error e => (some e, prog)
  | .ok stF =>
    match V.verifyAndMinimize stF with
    | Option.none => (some StorageError.unableToGenerate, prog)
    | some stV =>
      if V.verifyNotOverwritten stV then (Option.none, commitPhase prog an stV)
      else (some StorageError.unableToGenerate, prog)

/-- Index of the first operation satisfying a predicate. -/
def firstIdxWhere (p : SairOpData → Bool) : List SairOpData → Option Nat
  | [] => Option.none
  | op :: rest => if p op then some 0 else (firstIdxWhere p rest).map (· + 1)

/-- Index of the first compute operation lacking a loop-nest attribute. -/
def firstMissingLoopNest (prog : Program) : Option Nat :=
  firstIdxWhere (fun op => op.isCompute && op.loopNest.isNone) prog.ops

/-- Translation of DefaultStorage::runOnFunction (default_lowering_attributes.cc
lines 233-250): every compute operation must carry a loop-nest attribute
before storage inference starts; the first one lacking it aborts the pass
with "expected a loop-nest attribute" and nothing is assigned. -/
def runOnFunction (V : Verifiers) (an : IterationSpaceAnalysis) (prog : Program)
    (st : StorageState) : Option StorageError × Program :=
  match firstMissingLoopNest prog with
  | some i => (some (StorageError.expectedLoopNest i), prog)
  | Option.none => RunOnProgram V an prog st

/-- Mints one fresh loop per expression, threading the fresh-name
counter (the GetFreshLoopName calls of GetDefaultLoopNest, lines
344-349). -/
def mintLoops : List MappingExpr → Nat → List LoopAttr × Nat
  | [], c => ([], c)
  | e :: rest, c =>
    (⟨.fresh c, e⟩ :: (mintLoops rest (c + 1)).1, (mintLoops rest (c + 1)).2)

/-- Translation of GetDefaultLoopNest (default_lowering_attributes.cc
lines 327-352): inverse the prefix iterators, complete the mapping by
allocating new loops, inverse again and mint a fresh loop name for every
new iterator. -/
def GetDefaultLoopNest (numDimensions : Nat) (pre : List LoopAttr) (c : Nat) :
    List LoopAttr × Nat :=
  let iterExprs := pre.map (·.iter)
  let partInverse := (MappingAttr.mk numDimensions iterExprs).Inverse
  let fullInverse := partInverse.MakeSurjective
  let newIterExprs := fullInverse.Inverse
  (pre ++ (mintLoops (newIterExprs.dims.drop pre.length) c).1,
   (mintLoops (newIterExprs.dims.drop pre.length) c).2)

/-- Translation of the DefaultLoopNest pass (default_lowering_attributes.cc
lines 357-369): every compute operation lacking a loop-nest attribute gets
the default nest over its domain; all other operations are untouched. -/
def defaultLoopNestOps : List SairOpData → Nat → List SairOpData × Nat
  | [], c => ([], c)
  | op :: rest, c =>
    if op.isCompute && op.loopNest.isNone then
      ({ op with loopNest := some (GetDefaultLoopNest op.domainSize [] c).1 } ::
          (defaultLoopNestOps rest (GetDefaultLoopNest op.domainSize [] c).2).1,
        (defaultLoopNestOps rest (GetDefaultLoopNest op.domainSize [] c).2).2)
    else
      (op :: (defaultLoopNestOps rest c).1, (defaultLoopNestOps rest c).2)

/-- The DefaultLoopNest pass over a program, starting from the fusion
analysis' fresh-name counter. -/
def defaultLoopNestPass (prog : Program) (c : Nat) : Program × Nat :=
  (⟨(defaultLoopNestOps prog.ops c).1⟩, (defaultLoopNestOps prog.ops c).2)

/-- One operation as seen by the sequence analysis: its optional explicit
sequence number and the indices of the operations whose results it
consumes (use-def producers; SSA form guarantees producers appear earlier
in program order). -/
structure SeqOp where
  explicitSeq : Option Nat
  producers : List Nat
deriving DecidableEq, Inhabited

/-- The position an operation is given before dataflow constraints are
applied: its explicit sequence number when present, and the deterministic
program-order tie-break otherwise. Modelled from the spec (sequence.cc is
absent from src/). -/
def baseIndex (ops : List SeqOp) (i : Nat) : Nat :=
  match (ops.getD i default).explicitSeq with
  | some s => s
  | Option.none => i

/-- Modelled from the spec: SequenceAnalysis::ComputeDefaultSequence
(sequence.cc absent from src/) — each operation is placed no earlier than
any operation whose result it consumes; operations with an explicit
sequence attribute are placed by that number and the remaining ones by a
deterministic tie-break, then pushed past their producers. Only producers
appearing earlier in program order (SSA) constrain an operation. -/
def relIndex (ops : List SeqOp) (i : Nat) : Nat :=
  let ps := ((ops.getD i default).producers.filter (fun j => j < i)).attach
  max (baseIndex ops i)
    (ps.foldr (fun j acc => max (relIndex ops j.1) acc) 0)
termination_by i
decreasing_by
  exact of_decide_eq_true (List.mem_filter.mp j.2).2

/-! ### Helper lemmas about the storage state -/

theorem getStorage_setStorage_self (st : StorageState) (v : Nat) (s : ValueStorage) :
    getStorage (setStorage st v s) v = s := by
  simp [getStorage, setStorage, lookupStorage]

theorem getStorage_setStorage_ne (st : StorageState) (v w : Nat) (s : ValueStorage)
    (hw : w ≠ v) : getStorage (setStorage st v s) w = getStorage st w := by
  simp [getStorage, setStorage, lookupStorage, Ne.symm hw]

theorem getStorage_createBuffer_ne (st : StorageState) (v w : Nat)
    (names : List LoopName) (hw : w ≠ v) :
    getStorage (CreateBuffer st v names) w = getStorage st w := by
  simp [getStorage, CreateBuffer, lookupStorage, Ne.symm hw]

theorem getStorage_addDims (st : StorageState) (name : Nat) (m : MappingAttr) (w : Nat) :
    getStorage (AddDimensionsToBuffer st name m) w = getStorage st w := by
  simp [getStorage, AddDimensionsToBuffer]

theorem getBuffer_setStorage (st : StorageState) (v : Nat) (s : ValueStorage) (n : Nat) :
    getBuffer (setStorage st v s) n = getBuffer st n := by
  simp [getBuffer, setStorage]

theorem getBuffer_addDims_self (st : StorageState) (name : Nat) (m : MappingAttr) :
    getBuffer (AddDimensionsToBuffer st name m) name =
      { getBuffer st name with rank := m.dims.length } := by
  simp [getBuffer, AddDimensionsToBuffer, lookupBuffer]

/-! ### C10 -/

/-- C10: for every operand whose value already carries a memory space,
CreateBufferIfNeeded returns success immediately and modifies nothing —
no buffer is created and no error is raised, whatever FitsInRegisters
says and whatever the element type is, so a pre-existing explicit
memory-space choice is never overridden and never rejected. -/
theorem claim10_preexisting_space_untouched (od : ValueOperand)
    (an : IterationSpaceAnalysis) (prog : Program) (st : StorageState) (sp : Space)
    (h : (getStorage st od.value).space = some sp) :
    CreateBufferIfNeeded od an prog st = .ok st := by
  simp [CreateBufferIfNeeded, h]

def odW10 : ValueOperand := ⟨1, 3, ⟨1, [MappingExpr.dim 0]⟩, true⟩

def anW10 : IterationSpaceAnalysis := ⟨fun _ => ⟨[], ⟨0, []⟩⟩, fun _ _ m => m⟩

def progW10 : Program := ⟨[⟨true, 1, Option.none, [3], [], []⟩]⟩

def stW10 : StorageState := ⟨[(3, ⟨some Space.memory, some 0, Option.none⟩)], [], 1⟩

/-- Witness for C10 at a concrete operand that does not fit in registers
and has an index element type, but whose value already has a space. -/
theorem claim10_witness :
    CreateBufferIfNeeded odW10 anW10 progW10 stW10 = .ok stW10 :=
  claim10_preexisting_space_untouched odW10 anW10 progW10 stW10 Space.memory rfl

/-! ### C4 -/

/-- C4: for every operand that does not fit in registers, whose value has
no memory space yet, and whose element type is an index type, buffer
assignment fails with the fatal "cannot generate default storage for
multi-dimensional index values" error attributed to the producing
operation, and no buffer is created. -/
theorem claim4_index_values_error (od : ValueOperand) (an : IterationSpaceAnalysis)
    (prog : Program) (st : StorageState)
    (hspace : (getStorage st od.value).space = Option.none)
    (hfits : FitsInRegisters prog an od = false)
    (hidx : od.isIndexElementType = true) :
    CreateBufferIfNeeded od an prog st =
      .error (.indexStorage (producerOf prog od.value)) ∧
    errMessage (.indexStorage (producerOf prog od.value)) =
      "cannot generate default storage for multi-dimensional index values" := by
  refine ⟨?_, rfl⟩
  simp [CreateBufferIfNeeded, hspace, hfits, hidx]

def odW4 : ValueOperand := ⟨1, 5, ⟨1, [MappingExpr.dim 0]⟩, true⟩

def anW4 : IterationSpaceAnalysis :=
  ⟨fun i =>
      if i = 0 then ⟨[LoopName.fresh 0], ⟨1, [MappingExpr.dim 0]⟩⟩
      else ⟨[LoopName.fresh 1], ⟨1, [MappingExpr.dim 0]⟩⟩,
   fun _ _ m => m⟩

def progW4 : Program :=
  ⟨[⟨true, 1, Option.none, [5], [], []⟩,
    ⟨true, 1, Option.none, [6], [⟨1, 5, ⟨1, [MappingExpr.dim 0]⟩, true⟩], []⟩]⟩

def stW4 : StorageState := ⟨[], [], 0⟩

/-- Witness for C4: an index-typed operand accessed outside any common
loop is rejected with the exact diagnostic. -/
theorem claim4_witness :
    CreateBufferIfNeeded odW4 anW4 progW4 stW4 = .error (.indexStorage 0) ∧
    errMessage (.indexStorage 0) =
      "cannot generate default storage for multi-dimensional index values" := by
  have h := claim4_index_values_error odW4 anW4 progW4 stW4 rfl (by decide) rfl
  exact ⟨h.1, h.2⟩

/-! ### C6 -/

/-- C6: when the value's current layout, composed through the producer's
domain-to-loop mapping and inverted, already surjects onto the operand's
communication volume, ExtendLayout returns success and returns the state
unchanged — the value's storage, its layout and every buffer's rank are
untouched. -/
theorem claim6_surjective_layout_unchanged (od : ValueOperand)
    (an : IterationSpaceAnalysis) (prog : Program) (st : StorageState)
    (h : (layoutToCommVolume od an prog st).IsSurjective = true) :
    ExtendLayout od an prog st = .ok st := by
  simp [ExtendLayout, h]

def odW6 : ValueOperand := ⟨1, 5, ⟨1, [MappingExpr.dim 0]⟩, false⟩

def anW6 : IterationSpaceAnalysis :=
  ⟨fun i =>
      if i = 0 then ⟨[LoopName.fresh 0], ⟨1, [MappingExpr.dim 0]⟩⟩
      else ⟨[LoopName.fresh 1], ⟨1, [MappingExpr.dim 0]⟩⟩,
   fun _ _ m => m⟩

def progW6 : Program :=
  ⟨[⟨true, 1, Option.none, [5], [], []⟩,
    ⟨true, 1, Option.none, [6], [⟨1, 5, ⟨1, [MappingExpr.dim 0]⟩, false⟩], []⟩]⟩

def stW6 : StorageState :=
  ⟨[(5, ⟨some Space.memory, some 0, some ⟨1, [MappingExpr.dim 0]⟩⟩)],
   [(0, ⟨1, false, []⟩)], 1⟩

/-- Witness for C6: a rank-1 layout already covering the communication
volume leaves ExtendLayout a no-op. -/
theorem claim6_witness : ExtendLayout odW6 anW6 progW6 stW6 = .ok stW6 :=
  claim6_surjective_layout_unchanged odW6 anW6 progW6 stW6 (by rfl)

/-! ### C2 -/

def anC2 : IterationSpaceAnalysis :=
  ⟨fun _ => ⟨[LoopName.fresh 0], ⟨1, [MappingExpr.dim 0]⟩⟩, fun _ _ m => m⟩

def progC2 : Program :=
  ⟨[⟨true, 1, some [⟨LoopName.fresh 0, .dim 0⟩], [0], [], [Option.none]⟩]⟩

def stC2 : StorageState := ⟨[], [], 0⟩

/-- C2 counterexample: a value with no buffer assigned, produced inside a
one-loop iteration space, gets a default layout with zero entries — not
with one entry per iteration-space loop as the claim states. The claim's
register part holds but its layout-entry count is wrong for bufferless
values. -/
theorem claim2_counterexample :
    (getStorage stC2 0).space = Option.none ∧
    (getStorage stC2 0).bufferName = Option.none ∧
    (getStorage stC2 0).layout = Option.none ∧
    (anC2.get (producerOf progC2 0)).loopNames.length = 1 ∧
    ((getStorage (InitStorage 0 anC2 progC2 stC2) 0).layout.getD default).dims.length ≠
      (anC2.get (producerOf progC2 0)).loopNames.length := by
  exact ⟨rfl, rfl, rfl, rfl, by decide⟩

/-- C2 as amended: during default initialization every value still
missing a memory space is assigned register space, and every value still
missing a layout is assigned an all-"unknown" layout over the value's
full iteration-space mapping domain whose number of entries equals the
assigned buffer's rank when a buffer is already known, and is zero when
no buffer is assigned. -/
theorem claim2_amended_default_initialization (an : IterationSpaceAnalysis)
    (prog : Program) (st : StorageState) (v : Nat)
    (hsp : (getStorage st v).space = Option.none)
    (hly : (getStorage st v).layout = Option.none) :
    (getStorage (InitStorage v an prog st) v).space = some Space.register ∧
    ((getStorage st v).bufferName = Option.none →
      (getStorage (InitStorage v an prog st) v).layout =
        some ⟨(an.get (producerOf prog v)).mapping.dims.length, []⟩) ∧
    (∀ name, (getStorage st v).bufferName = some name →
      (getStorage (InitStorage v an prog st) v).layout =
        some ⟨(an.get (producerOf prog v)).mapping.dims.length,
              List.replicate (getBuffer st name).rank MappingExpr.unknownExpr⟩) := by
  unfold InitStorage
  rw [getStorage_setStorage_self]
  refine ⟨by simp [hsp, hly], ?_, ?_⟩
  · intro hb
    simp [hsp, hly, hb]
  · intro name hb
    simp [hsp, hly, hb]

def stC2w : StorageState :=
  ⟨[(0, ⟨Option.none, some 4, Option.none⟩)], [(4, ⟨2, false, []⟩)], 5⟩

/-- Witness for the amended C2: a value with a rank-2 buffer already
assigned gets register space and a two-entry all-unknown layout over its
one-dimensional iteration space. -/
theorem claim2_witness :
    (getStorage (InitStorage 0 anC2 progC2 stC2w) 0).space = some Space.register ∧
    (getStorage (InitStorage 0 anC2 progC2 stC2w) 0).layout =
      some ⟨1, [MappingExpr.unknownExpr, MappingExpr.unknownExpr]⟩ := by
  have h := claim2_amended_default_initialization anC2 progC2 stC2w 0 rfl rfl
  exact ⟨h.1, by rw [h.2.2 4 rfl]; rfl⟩

/-! ### C1 -/

theorem createBufferIfNeeded_fits_ok (od : ValueOperand) (an : IterationSpaceAnalysis)
    (prog : Program) (st : StorageState)
    (h1 : (getStorage st od.value).space = Option.none)
    (h2 : FitsInRegisters prog an od = true) :
    CreateBufferIfNeeded od an prog st = .ok st := by
  simp [CreateBufferIfNeeded, h1, h2]

theorem createBufferIfNeeded_ok_preserves (od : ValueOperand)
    (an : IterationSpaceAnalysis) (prog : Program) (st st' : StorageState)
    (h : CreateBufferIfNeeded od an prog st = .ok st') (w : Nat) (hw : w ≠ od.value) :
    getStorage st' w = getStorage st w := by
  simp only [CreateBufferIfNeeded] at h
  split_ifs at h with h1 h2 h3
  · simp only [Except.ok.injEq] at h
    subst h; rfl
  · simp only [Except.ok.injEq] at h
    subst h; rfl
  · simp only [Except.ok.injEq] at h
    rw [← h]
    exact getStorage_createBuffer_ne st od.value w _ hw

theorem bufferFold_preserves (an : IterationSpaceAnalysis) (prog : Program) (v : Nat) :
    ∀ (l : List ValueOperand) (st st' : StorageState),
      (getStorage st v).space = Option.none →
      (∀ od ∈ l, od.value = v → FitsInRegisters prog an od = true) →
      l.foldlM (fun s od => CreateBufferIfNeeded od an prog s) st = .ok st' →
      getStorage st' v = getStorage st v := by
  intro l
  induction l with
  | nil =>
    intro st st' _ _ h
    simp only [List.foldlM_nil] at h
    have h' : st = st' := by
      injection h
    rw [← h']
  | cons od rest ih =>
    intro st st' hsp hf h
    rw [List.foldlM_cons] at h
    cases hc : CreateBufferIfNeeded od an prog st with
    | error e =>
      rw [hc] at h
      exact absurd h (by intro hcontra; injection hcontra)
    | ok st1 =>
      rw [hc] at h
      have h' : rest.foldlM (fun s od => CreateBufferIfNeeded od an prog s) st1 = .ok st' := h
      have hpres : getStorage st1 v = getStorage st v := by
        by_cases hv : od.value = v
        · have hok : CreateBufferIfNeeded od an prog st = .ok st := by
            apply createBufferIfNeeded_fits_ok
            · rw [hv]; exact hsp
            · exact hf od (List.mem_cons_self od rest) hv
          rw [hok] at hc
          injection hc with hc
          rw [hc]
        · exact createBufferIfNeeded_ok_preserves od an prog st st1 hc v
            (fun hvv => hv hvv.symm)
      have hsp1 : (getStorage st1 v).space = Option.none := by rw [hpres]; exact hsp
      have := ih st1 st' hsp1 (fun od h hv => hf od (List.mem_cons_of_mem _ h) hv) h'
      rw [this, hpres]

theorem initStorage_ne (an : IterationSpaceAnalysis) (prog : Program)
    (s : StorageState) (w v : Nat) (hw : v ≠ w) :
    getStorage (InitStorage w an prog s) v = getStorage s v := by
  unfold InitStorage
  exact getStorage_setStorage_ne s w v _ hw

theorem initStorage_space_some (an : IterationSpaceAnalysis) (prog : Program)
    (s : StorageState) (v w : Nat) (sp : Space)
    (h : (getStorage s v).space = some sp) :
    (getStorage (InitStorage w an prog s) v).space = some sp := by
  by_cases hw : v = w
  · subst hw
    unfold InitStorage
    rw [getStorage_setStorage_self]
    simp [h]
    split <;> simp [h]
  · rw [initStorage_ne an prog s w v hw]
    exact h

theorem initStorage_space_register (an : IterationSpaceAnalysis) (prog : Program)
    (s : StorageState) (v : Nat) (h : (getStorage s v).space = Option.none) :
    (getStorage (InitStorage v an prog s) v).space = some Space.register := by
  unfold InitStorage
  rw [getStorage_setStorage_self]
  simp [h]
  split <;> rfl

theorem initStorage_bufferName (an : IterationSpaceAnalysis) (prog : Program)
    (s : StorageState) (v w : Nat) :
    (getStorage (InitStorage w an prog s) v).bufferName =
      (getStorage s v).bufferName := by
  by_cases hw : v = w
  · subst hw
    unfold InitStorage
    rw [getStorage_setStorage_self]
    split <;> split <;> rfl
  · rw [initStorage_ne an prog s w v hw]

theorem initFold_space_stable (an : IterationSpaceAnalysis) (prog : Program)
    (v : Nat) (sp : Space) :
    ∀ (l : List Nat) (s : StorageState), (getStorage s v).space = some sp →
      (getStorage (l.foldl (fun s w => InitStorage w an prog s) s) v).space = some sp := by
  intro l
  induction l with
  | nil => intro s h; simpa using h
  | cons w rest ih =>
    intro s h
    rw [List.foldl_cons]
    exact ih _ (initStorage_space_some an prog s v w sp h)

theorem initFold_space_register (an : IterationSpaceAnalysis) (prog : Program) (v : Nat) :
    ∀ (l : List Nat) (s : StorageState),
      (getStorage s v).space = Option.none → v ∈ l →
      (getStorage (l.foldl (fun s w => InitStorage w an prog s) s) v).space =
        some Space.register := by
  intro l
  induction l with
  | nil => intro s _ hm; cases hm
  | cons w rest ih =>
    intro s h hm
    rw [List.foldl_cons]
    by_cases hw : v = w
    · subst hw
      exact initFold_space_stable an prog v Space.register rest _
        (initStorage_space_register an prog s v h)
    · rcases List.mem_cons.mp hm with h1 | h1
      · exact absurd h1 hw
      · exact ih _ (by rw [initStorage_ne an prog s w v hw]; exact h) h1

theorem initFold_bufferName (an : IterationSpaceAnalysis) (prog : Program) (v : Nat) :
    ∀ (l : List Nat) (s : StorageState),
      (getStorage (l.foldl (fun s w => InitStorage w an prog s) s) v).bufferName =
        (getStorage s v).bufferName := by
  intro l
  induction l with
  | nil => intro s; rfl
  | cons w rest ih =>
    intro s
    rw [List.foldl_cons, ih, initStorage_bufferName]

/-- C1: a value whose storage starts unset and whose every consumer
accesses it only along loops common to producer and consumer (the
translated access mapping's MinDomainSize is at most the number of common
loops, i.e. FitsInRegisters holds for every use) is never assigned a
buffer by the buffer-assignment walk: each CreateBufferIfNeeded call on
its uses returns success without creating a buffer, its storage is left
untouched, and default initialization then puts the value in register
storage with no buffer name. -/
theorem claim1_register_when_all_uses_fit (prog : Program)
    (an : IterationSpaceAnalysis) (st st' : StorageState) (v : Nat)
    (hspace : (getStorage st v).space = Option.none)
    (hbuf : (getStorage st v).bufferName = Option.none)
    (hfits : ∀ od ∈ prog.allOperands, od.value = v → FitsInRegisters prog an od = true)
    (hrun : bufferAssignmentPhase prog an st = .ok st') :
    getStorage st' v = getStorage st v ∧
    (getStorage st' v).bufferName = Option.none ∧
    (∀ od ∈ prog.allOperands, od.value = v →
      CreateBufferIfNeeded od an prog st' = .ok st') ∧
    (v ∈ prog.allResults →
      (getStorage (initStoragePhase prog an st') v).space = some Space.register ∧
      (getStorage (initStoragePhase prog an st') v).bufferName = Option.none) := by
  have hpres := bufferFold_preserves an prog v prog.allOperands st st' hspace hfits hrun
  have hsp' : (getStorage st' v).space = Option.none := by rw [hpres]; exact hspace
  have hbn' : (getStorage st' v).bufferName = Option.none := by rw [hpres]; exact hbuf
  refine ⟨hpres, hbn', ?_, ?_⟩
  · intro od hod hv
    apply createBufferIfNeeded_fits_ok
    · rw [hv]; exact hsp'
    · exact hfits od hod hv
  · intro hv
    constructor
    · exact initFold_space_register an prog v prog.allResults st' hsp' hv
    · show (getStorage (prog.allResults.foldl (fun s w => InitStorage w an prog s) st') v).bufferName = _
      rw [initFold_bufferName]
      exact hbn'

def anW1 : IterationSpaceAnalysis :=
  ⟨fun _ => ⟨[LoopName.fresh 0], ⟨1, [MappingExpr.dim 0]⟩⟩, fun _ _ m => m⟩

def progW1 : Program :=
  ⟨[⟨true, 1, Option.none, [7], [], []⟩,
    ⟨true, 1, Option.none, [8], [⟨1, 7, ⟨1, [MappingExpr.dim 0]⟩, false⟩], []⟩]⟩

def stW1 : StorageState := ⟨[], [], 0⟩

/-- Witness for C1: a value consumed once, along the shared loop, ends in
register storage with no buffer. -/
theorem claim1_witness :
    (getStorage stW1 7).bufferName = Option.none ∧
    (getStorage (initStoragePhase progW1 anW1 stW1) 7).space = some Space.register ∧
    (getStorage (initStoragePhase progW1 anW1 stW1) 7).bufferName = Option.none := by
  have h := claim1_register_when_all_uses_fit progW1 anW1 stW1 stW1 7 rfl rfl
    (by decide) (by rfl)
  have h4 := h.2.2.2 (by decide)
  exact ⟨h.2.1, h4.1, h4.2⟩

/-! ### C5 -/

/-- C5: the default storage pass commits storage attributes onto
operations only after both the buffer-loop-nest verification/minimization
and the overwrite-before-use check succeed; on any failure the pass
reports an error and writes no storage attribute onto any operation, and
a verification failure in particular is reported as the wrapping "unable
to generate storage attributes" error with the program untouched. -/
theorem claim5_commit_only_after_verification (V : Verifiers)
    (an : IterationSpaceAnalysis) (prog : Program) (st : StorageState) :
    (∀ e, (RunOnProgram V an prog st).1 = some e →
      (RunOnProgram V an prog st).2 = prog) ∧
    (∀ stF, storagePhases an prog st = .ok stF →
      (V.verifyAndMinimize stF = Option.none →
        RunOnProgram V an prog st = (some StorageError.unableToGenerate, prog)) ∧
      (∀ stV, V.verifyAndMinimize stF = some stV →
        V.verifyNotOverwritten stV = false →
        RunOnProgram V an prog st = (some StorageError.unableToGenerate, prog)) ∧
      (∀ stV, V.verifyAndMinimize stF = some stV →
        V.verifyNotOverwritten stV = true →
        RunOnProgram V an prog st = (Option.none, commitPhase prog an stV)) ∧
      errMessage StorageError.unableToGenerate =
        "unable to generate storage attributes, see other errors for more information") := by
  constructor
  · intro e he
    unfold RunOnProgram at he ⊢
    cases hp : storagePhases an prog st with
    | error e' => simp [hp]
    | ok stF =>
      cases hm : V.verifyAndMinimize stF with
      | none => simp [hp, hm]
      | some stV =>
        by_cases ho : V.verifyNotOverwritten stV
        · exfalso
          rw [hp] at he
          simp [hm, ho] at he
        · simp [hp, hm, ho]
  · intro stF hp
    refine ⟨?_, ?_, ?_, rfl⟩
    · intro hm
      simp [RunOnProgram, hp, hm]
    · intro stV hm ho
      simp [RunOnProgram, hp, hm, ho]
    · intro stV hm ho
      simp [RunOnProgram, hp, hm, ho]

def vW5 : Verifiers := ⟨fun _ => Option.none, fun _ => false⟩

def anW5 : IterationSpaceAnalysis := ⟨fun _ => ⟨[], ⟨0, []⟩⟩, fun _ _ m => m⟩

def progW5 : Program := ⟨[]⟩

def stW5 : StorageState := ⟨[], [], 0⟩

/-- Witness for C5: with a failing verifier the pass reports the wrapping
error and leaves the program untouched. -/
theorem claim5_witness :
    RunOnProgram vW5 anW5 progW5 stW5 = (some StorageError.unableToGenerate, progW5) :=
  (((claim5_commit_only_after_verification vW5 anW5 progW5 stW5).2 stW5 (by rfl)).1) rfl

/-! ### C8 -/

theorem firstIdxWhere_exists (p : SairOpData → Bool) :
    ∀ (l : List SairOpData), (∃ a ∈ l, p a = true) →
      ∃ i b, firstIdxWhere p l = some i ∧ l[i]? = some b ∧ p b = true := by
  intro l
  induction l with
  | nil => rintro ⟨a, ha, _⟩; cases ha
  | cons x rest ih =>
    rintro ⟨a, ha, hp⟩
    by_cases hx : p x = true
    · exact ⟨0, x, by simp [firstIdxWhere, hx], by simp, hx⟩
    · have hmem : a ∈ rest := by
        rcases List.mem_cons.mp ha with h1 | h1
        · exact absurd (h1 ▸ hp) hx
        · exact h1
      obtain ⟨i, b, hfi, hb, hpb⟩ := ih ⟨a, hmem, hp⟩
      refine ⟨i + 1, b, ?_, ?_, hpb⟩
      · simp [firstIdxWhere, hx, hfi]
      · simpa using hb

/-- C8: the default storage pass requires every compute operation to
carry a loop-nest attribute before any storage inference begins: when
some compute operation lacks one, the pass fails with "expected a
loop-nest attribute" on the first such operation and leaves the program
untouched, assigning no storage. -/
theorem claim8_missing_loop_nest_error (V : Verifiers) (an : IterationSpaceAnalysis)
    (prog : Program) (st : StorageState) (op : SairOpData)
    (hmem : op ∈ prog.ops) (hc : op.isCompute = true) (hn : op.loopNest = Option.none) :
    ∃ i opI, firstMissingLoopNest prog = some i ∧ prog.ops[i]? = some opI ∧
      opI.isCompute = true ∧ opI.loopNest = Option.none ∧
      runOnFunction V an prog st = (some (StorageError.expectedLoopNest i), prog) ∧
      errMessage (StorageError.expectedLoopNest i) = "expected a loop-nest attribute" := by
  obtain ⟨i, b, hfi, hb, hp⟩ :=
    firstIdxWhere_exists (fun op => op.isCompute && op.loopNest.isNone) prog.ops
      ⟨op, hmem, by simp [hc, hn]⟩
  have hsplit := Bool.and_eq_true_iff.mp hp
  refine ⟨i, b, hfi, hb, hsplit.1, Option.isNone_iff_eq_none.mp hsplit.2, ?_, rfl⟩
  simp [runOnFunction, firstMissingLoopNest] at hfi ⊢
  rw [hfi]

def vW8 : Verifiers := ⟨fun s => some s, fun _ => true⟩

def anW8 : IterationSpaceAnalysis := ⟨fun _ => ⟨[], ⟨0, []⟩⟩, fun _ _ m => m⟩

def opW8 : SairOpData := ⟨true, 1, Option.none, [0], [], [Option.none]⟩

def progW8 : Program := ⟨[opW8]⟩

def stW8 : StorageState := ⟨[], [], 0⟩

/-- Witness for C8: a single compute operation without a loop-nest
attribute aborts the pass with the expected diagnostic and an untouched
program. -/
theorem claim8_witness :
    runOnFunction vW8 anW8 progW8 stW8 =
      (some (StorageError.expectedLoopNest 0), progW8) := by
  obtain ⟨i, opI, hfi, _, _, _, hrun, _⟩ :=
    claim8_missing_loop_nest_error vW8 anW8 progW8 stW8 opW8
      (List.mem_cons_self opW8 []) rfl rfl
  have h0 : some i = some 0 := hfi.symm.trans (by rfl)
  injection h0 with h0
  rw [h0] at hrun
  exact hrun

/-! ### C3: list and mapping-algebra lemmas -/

theorem map_ext_mem {α β : Type} (f g : α → β) :
    ∀ (l : List α), (∀ a ∈ l, f a = g a) → l.map f = l.map g := by
  intro l
  induction l with
  | nil => intro _; rfl
  | cons a t ih =>
    intro h
    simp only [List.map_cons]
    rw [h a (List.mem_cons_self a t), ih (fun b hb => h b (List.mem_cons_of_mem a hb))]

theorem natsFrom_length : ∀ (n c : Nat), (natsFrom c n).length = n := by
  intro n
  induction n with
  | zero => intro c; rfl
  | succ m ih => intro c; simp [natsFrom, ih]

theorem getD_map_lt {α β : Type} (f : α → β) :
    ∀ (l : List α) (n : Nat) (d : β) (d' : α), n < l.length →
      (l.map f).getD n d = f (l.getD n d') := by
  intro l
  induction l with
  | nil => intro n d d' h; simp at h
  | cons a t ih =>
    intro n d d' h
    cases n with
    | zero => rfl
    | succ m =>
      simp only [List.map_cons, List.getD_cons_succ]
      exact ih m d d' (Nat.lt_of_succ_lt_succ h)

theorem getD_append_lt {α : Type} :
    ∀ (l1 l2 : List α) (n : Nat) (d : α), n < l1.length →
      (l1 ++ l2).getD n d = l1.getD n d := by
  intro l1
  induction l1 with
  | nil => intro l2 n d h; simp at h
  | cons a t ih =>
    intro l2 n d h
    cases n with
    | zero => rfl
    | succ m =>
      simp only [List.cons_append, List.getD_cons_succ]
      exact ih l2 m d (Nat.lt_of_succ_lt_succ h)

theorem getD_append_ge {α : Type} :
    ∀ (l1 l2 : List α) (n : Nat) (d : α), l1.length ≤ n →
      (l1 ++ l2).getD n d = l2.getD (n - l1.length) d := by
  intro l1
  induction l1 with
  | nil => intro l2 n d _; simp
  | cons a t ih =>
    intro l2 n d h
    cases n with
    | zero => simp at h
    | succ m =>
      simp only [List.cons_append, List.getD_cons_succ, List.length_cons,
        Nat.succ_sub_succ]
      exact ih l2 m d (Nat.le_of_succ_le_succ h)

theorem getD_natsFrom : ∀ (n c i d : Nat), i < n → (natsFrom c n).getD i d = c + i := by
  intro n
  induction n with
  | zero => intro c i d h; simp at h
  | succ m ih =>
    intro c i d h
    cases i with
    | zero => simp [natsFrom]
    | succ j =>
      show (c :: natsFrom (c + 1) m).getD (j + 1) d = c + (j + 1)
      rw [List.getD_cons_succ, ih (c + 1) j d (Nat.lt_of_succ_lt_succ h)]
      omega

theorem getD_mem {α : Type} :
    ∀ (l : List α) (n : Nat) (d : α), n < l.length → l.getD n d ∈ l := by
  intro l
  induction l with
  | nil => intro n d h; simp at h
  | cons a t ih =>
    intro n d h
    cases n with
    | zero => exact List.mem_cons_self a t
    | succ m =>
      rw [List.getD_cons_succ]
      exact List.mem_cons_of_mem a (ih m d (Nat.lt_of_succ_lt_succ h))

theorem getD_ge {α : Type} :
    ∀ (l : List α) (n : Nat) (d : α), l.length ≤ n → l.getD n d = d := by
  intro l
  induction l with
  | nil => intro n d _; rfl
  | cons a t ih =>
    intro n d h
    cases n with
    | zero => simp at h
    | succ m =>
      rw [List.getD_cons_succ]
      exact ih m d (Nat.le_of_succ_le_succ h)

theorem idxOf?_lt (e : MappingExpr) :
    ∀ (l : List MappingExpr) (j : Nat), idxOf? e l = some j → j < l.length := by
  intro l
  induction l with
  | nil => intro j h; simp [idxOf?] at h
  | cons a t ih =>
    intro j h
    simp only [idxOf?] at h
    split_ifs at h with ha
    · injection h with h
      simp [← h]
    · rw [Option.map_eq_some'] at h
      obtain ⟨j', hj', rfl⟩ := h
      have := ih j' hj'
      simp only [List.length_cons]
      omega

theorem fillHoles_length :
    ∀ (l : List MappingExpr) (c : Nat), (fillHoles l c).length = l.length := by
  intro l
  induction l with
  | nil => intro c; rfl
  | cons e t ih => intro c; cases e <;> simp [fillHoles, ih]

theorem fillHoles_mem : ∀ (l : List MappingExpr) (c : Nat) (e : MappingExpr),
    e ∈ fillHoles l c →
    (e ∈ l ∧ e.isDim = true) ∨ ∃ j, e = .dim j ∧ c ≤ j ∧ j < c + countHoles l := by
  intro l
  induction l with
  | nil => intro c e h; simp [fillHoles] at h
  | cons a t ih =>
    intro c e h
    cases a with
    | dim i =>
      rw [show fillHoles (.dim i :: t) c = .dim i :: fillHoles t c from rfl] at h
      have hch : countHoles (MappingExpr.dim i :: t) = countHoles t := by
        simp [countHoles, List.countP_cons, MappingExpr.isDim]
      rcases List.mem_cons.mp h with rfl | h2
      · exact Or.inl ⟨List.mem_cons_self _ _, rfl⟩
      · rcases ih c e h2 with ⟨hm, hd⟩ | ⟨j, rfl, h1, h2'⟩
        · exact Or.inl ⟨List.mem_cons_of_mem _ hm, hd⟩
        · exact Or.inr ⟨j, rfl, h1, by omega⟩
    | noneExpr =>
      rw [show fillHoles (.noneExpr :: t) c = .dim c :: fillHoles t (c + 1) from rfl] at h
      have hch : countHoles (MappingExpr.noneExpr :: t) = countHoles t + 1 := by
        simp [countHoles, List.countP_cons, MappingExpr.isDim]
      rcases List.mem_cons.mp h with rfl | h2
      · exact Or.inr ⟨c, rfl, Nat.le_refl c, by omega⟩
      · rcases ih (c + 1) e h2 with ⟨hm, hd⟩ | ⟨j, rfl, h1, h2'⟩
        · exact Or.inl ⟨List.mem_cons_of_mem _ hm, hd⟩
        · exact Or.inr ⟨j, rfl, by omega, by omega⟩
    | unknownExpr =>
      rw [show fillHoles (.unknownExpr :: t) c = .dim c :: fillHoles t (c + 1) from rfl] at h
      have hch : countHoles (MappingExpr.unknownExpr :: t) = countHoles t + 1 := by
        simp [countHoles, List.countP_cons, MappingExpr.isDim]
      rcases List.mem_cons.mp h with rfl | h2
      · exact Or.inr ⟨c, rfl, Nat.le_refl c, by omega⟩
      · rcases ih (c + 1) e h2 with ⟨hm, hd⟩ | ⟨j, rfl, h1, h2'⟩
        · exact Or.inl ⟨List.mem_cons_of_mem _ hm, hd⟩
        · exact Or.inr ⟨j, rfl, by omega, by omega⟩

theorem fillHoles_hole_getD : ∀ (l : List MappingExpr) (c n : Nat),
    n < l.length → (l.getD n .noneExpr).isDim = false →
    ∃ h, h < countHoles l ∧ (fillHoles l c).getD n .noneExpr = .dim (c + h) := by
  intro l
  induction l with
  | nil => intro c n h _; simp at h
  | cons a t ih =>
    intro c n hn hhole
    cases a with
    | dim i =>
      have hch : countHoles (MappingExpr.dim i :: t) = countHoles t := by
        simp [countHoles, List.countP_cons, MappingExpr.isDim]
      cases n with
      | zero => simp [MappingExpr.isDim] at hhole
      | succ m =>
        rw [List.getD_cons_succ] at hhole
        obtain ⟨h, hh, heq⟩ := ih c m (Nat.lt_of_succ_lt_succ hn) hhole
        refine ⟨h, by omega, ?_⟩
        rw [show fillHoles (.dim i :: t) c = .dim i :: fillHoles t c from rfl,
          List.getD_cons_succ]
        exact heq
    | noneExpr =>
      have hch : countHoles (MappingExpr.noneExpr :: t) = countHoles t + 1 := by
        simp [countHoles, List.countP_cons, MappingExpr.isDim]
      cases n with
      | zero =>
        refine ⟨0, by omega, ?_⟩
        rw [show fillHoles (.noneExpr :: t) c = .dim c :: fillHoles t (c + 1) from rfl]
        simp
      | succ m =>
        rw [List.getD_cons_succ] at hhole
        obtain ⟨h, hh, heq⟩ := ih (c + 1) m (Nat.lt_of_succ_lt_succ hn) hhole
        refine ⟨h + 1, by omega, ?_⟩
        rw [show fillHoles (.noneExpr :: t) c = .dim c :: fillHoles t (c + 1) from rfl,
          List.getD_cons_succ, heq]
        congr 1
        omega
    | unknownExpr =>
      have hch : countHoles (MappingExpr.unknownExpr :: t) = countHoles t + 1 := by
        simp [countHoles, List.countP_cons, MappingExpr.isDim]
      cases n with
      | zero =>
        refine ⟨0, by omega, ?_⟩
        rw [show fillHoles (.unknownExpr :: t) c = .dim c :: fillHoles t (c + 1) from rfl]
        simp
      | succ m =>
        rw [List.getD_cons_succ] at hhole
        obtain ⟨h, hh, heq⟩ := ih (c + 1) m (Nat.lt_of_succ_lt_succ hn) hhole
        refine ⟨h + 1, by omega, ?_⟩
        rw [show fillHoles (.unknownExpr :: t) c = .dim c :: fillHoles t (c + 1) from rfl,
          List.getD_cons_succ, heq]
        congr 1
        omega

theorem compose_refs (m n : MappingAttr) (i : Nat)
    (h : MappingExpr.dim i ∈ (m.Compose n).dims) : MappingExpr.dim i ∈ m.dims := by
  simp only [MappingAttr.Compose, List.mem_map] at h
  obtain ⟨e, _, he⟩ := h
  cases e with
  | dim j =>
    simp only [substExpr] at he
    by_cases hj : j < m.dims.length
    · rw [← he]
      exact getD_mem m.dims j _ hj
    · rw [getD_ge m.dims j _ (Nat.le_of_not_lt hj)] at he
      simp at he
  | noneExpr => simp [substExpr] at he
  | unknownExpr => simp [substExpr] at he

theorem inverse_refs (m : MappingAttr) (i : Nat)
    (h : MappingExpr.dim i ∈ m.Inverse.dims) : i < m.dims.length := by
  simp only [MappingAttr.Inverse, List.mem_map] at h
  obtain ⟨x, _, hx⟩ := h
  cases hix : idxOf? (.dim x) m.dims with
  | none => rw [hix] at hx; simp at hx
  | some j =>
    rw [hix] at hx
    simp at hx
    rw [← hx]
    exact idxOf?_lt (.dim x) m.dims j hix

theorem ltcv_use (od : ValueOperand) (an : IterationSpaceAnalysis) (prog : Program)
    (st : StorageState) (l : MappingAttr)
    (hl : (getStorage st od.value).layout = some l) :
    (layoutToCommVolume od an prog st).useDomainSize = l.dims.length := by
  simp [layoutToCommVolume, MappingAttr.Compose, MappingAttr.Inverse, hl]

theorem ltcv_refs_bounded (od : ValueOperand) (an : IterationSpaceAnalysis)
    (prog : Program) (st : StorageState) (i : Nat)
    (h : MappingExpr.dim i ∈ (layoutToCommVolume od an prog st).dims) :
    i < (layoutToCommVolume od an prog st).useDomainSize := by
  simp only [layoutToCommVolume] at h ⊢
  have h2 := compose_refs _ _ _ h
  have h3 := inverse_refs _ _ h2
  simpa [MappingAttr.Compose, MappingAttr.Inverse] using h3

theorem perm_dims_eq (rank k : Nat) :
    (((MappingAttr.GetIdentity rank).ShiftRight k).AppendExprs
        (MappingAttr.GetIdentity k).dims).dims =
      (natsFrom 0 rank).map (fun x => MappingExpr.dim (x + k)) ++
        (natsFrom 0 k).map MappingExpr.dim := by
  simp only [MappingAttr.AppendExprs, MappingAttr.ShiftRight, MappingAttr.GetIdentity,
    List.map_map]
  rfl

theorem perm_getD_lt (rank k j : Nat) (hj : j < rank) (d : MappingExpr) :
    ((natsFrom 0 rank).map (fun x => MappingExpr.dim (x + k)) ++
        (natsFrom 0 k).map MappingExpr.dim).getD j d = .dim (j + k) := by
  rw [getD_append_lt _ _ _ _ (by simpa [natsFrom_length] using hj)]
  rw [getD_map_lt _ _ _ _ 0 (by simpa [natsFrom_length] using hj)]
  rw [getD_natsFrom rank 0 j 0 hj]
  simp

theorem perm_getD_ge (rank k j : Nat) (h1 : rank ≤ j) (h2 : j < rank + k)
    (d : MappingExpr) :
    ((natsFrom 0 rank).map (fun x => MappingExpr.dim (x + k)) ++
        (natsFrom 0 k).map MappingExpr.dim).getD j d = .dim (j - rank) := by
  rw [getD_append_ge _ _ _ _ (by simpa [natsFrom_length] using h1)]
  have hlen : ((natsFrom 0 rank).map (fun x => MappingExpr.dim (x + k))).length = rank := by
    simp [natsFrom_length]
  rw [hlen]
  rw [getD_map_lt _ _ _ _ 0 (by simp [natsFrom_length]; omega)]
  rw [getD_natsFrom k 0 (j - rank) 0 (by omega)]
  simp

theorem perm_getD_isDim (rank k j : Nat) (hj : j < rank + k) (d : MappingExpr) :
    (((natsFrom 0 rank).map (fun x => MappingExpr.dim (x + k)) ++
        (natsFrom 0 k).map MappingExpr.dim).getD j d).isDim = true := by
  by_cases h : j < rank
  · rw [perm_getD_lt rank k j h d]
    rfl
  · rw [perm_getD_ge rank k j (Nat.le_of_not_lt h) hj d]
    rfl

theorem extendedLayoutFor_surjective (m : MappingAttr) (rank : Nat)
    (hwf : ∀ i, MappingExpr.dim i ∈ m.dims → i < m.useDomainSize)
    (hus : m.useDomainSize = rank) :
    (extendedLayoutFor m rank).IsSurjective = true := by
  have hk : m.MakeSurjective.useDomainSize - rank = countHoles m.dims := by
    simp only [MappingAttr.MakeSurjective]
    omega
  simp only [extendedLayoutFor, MappingAttr.Compose, MappingAttr.IsSurjective, hk]
  rw [List.all_eq_true]
  intro e he
  rw [List.mem_map] at he
  obtain ⟨e', he', rfl⟩ := he
  have hex : ∃ i, e' = MappingExpr.dim i ∧ i < rank + countHoles m.dims := by
    have he'' : e' ∈ fillHoles m.dims m.useDomainSize := by
      simpa [MappingAttr.MakeSurjective] using he'
    rcases fillHoles_mem m.dims m.useDomainSize e' he'' with ⟨hmem, hdim⟩ | ⟨j, rfl, hle, hlt⟩
    · cases e' with
      | dim i =>
        have := hwf i hmem
        exact ⟨i, rfl, by omega⟩
      | noneExpr => simp [MappingExpr.isDim] at hdim
      | unknownExpr => simp [MappingExpr.isDim] at hdim
    · exact ⟨j, rfl, by omega⟩
  obtain ⟨i, rfl, hi⟩ := hex
  simp only [substExpr]
  rw [perm_dims_eq]
  exact perm_getD_isDim rank (countHoles m.dims) i hi _

theorem extendedLayoutFor_holes_leading (m : MappingAttr) (rank : Nat)
    (hus : m.useDomainSize = rank) (c : Nat) (hc : c < m.dims.length)
    (hhole : (m.dims.getD c MappingExpr.noneExpr).isDim = false) :
    ∃ h, h < m.MakeSurjective.useDomainSize - rank ∧
      (extendedLayoutFor m rank).dims.getD c MappingExpr.noneExpr = .dim h := by
  have hk : m.MakeSurjective.useDomainSize - rank = countHoles m.dims := by
    simp only [MappingAttr.MakeSurjective]
    omega
  obtain ⟨h, hh, hfill⟩ := fillHoles_hole_getD m.dims m.useDomainSize c hc hhole
  refine ⟨h, by omega, ?_⟩
  simp only [extendedLayoutFor, MappingAttr.Compose, hk]
  rw [getD_map_lt _ _ _ _ MappingExpr.noneExpr
    (by simp [MappingAttr.MakeSurjective, fillHoles_length]; omega)]
  have hms : (m.MakeSurjective).dims.getD c MappingExpr.noneExpr =
      .dim (m.useDomainSize + h) := by
    simpa [MappingAttr.MakeSurjective] using hfill
  rw [hms]
  simp only [substExpr]
  rw [perm_dims_eq, hus]
  rw [perm_getD_ge rank (countHoles m.dims) (rank + h) (by omega) (by omega)]
  congr 1
  omega

/-- C3: when the composed-and-inverted layout does not surject onto the
operand's communication volume, ExtendLayout fails on an external buffer
with the "increase the rank of an external buffer" error attributed to
the producing operation; on an internal buffer it succeeds, the extended
layout is surjective with the newly introduced dimensions placed as the
buffer's leading dimensions, and the buffer's rank grows by the number of
new dimensions. -/
theorem claim3_extend_layout (od : ValueOperand) (an : IterationSpaceAnalysis)
    (prog : Program) (st : StorageState) (name : Nat) (l : MappingAttr)
    (hl : (getStorage st od.value).layout = some l)
    (hname : (getStorage st od.value).bufferName = some name)
    (hsurj : (layoutToCommVolume od an prog st).IsSurjective = false) :
    ((getBuffer st name).isExt = true →
      ExtendLayout od an prog st =
        .error (.extBufferRank (producerOf prog od.value)) ∧
      errMessage (.extBufferRank (producerOf prog od.value)) =
        "specifying value layout would require to increase the rank of an external buffer") ∧
    ((getBuffer st name).isExt = false → l.dims.length = (getBuffer st name).rank →
      ExtendLayout od an prog st = .ok (extendLayoutApply od an prog st name) ∧
      (getBuffer (extendLayoutApply od an prog st name) name).rank =
        (getBuffer st name).rank +
          ((layoutToCommVolume od an prog st).MakeSurjective.useDomainSize -
            (getBuffer st name).rank) ∧
      (extendedLayoutFor (layoutToCommVolume od an prog st)
          (getBuffer st name).rank).IsSurjective = true ∧
      (∀ c, c < (layoutToCommVolume od an prog st).dims.length →
        ((layoutToCommVolume od an prog st).dims.getD c MappingExpr.noneExpr).isDim = false →
        ∃ h, h < (layoutToCommVolume od an prog st).MakeSurjective.useDomainSize -
              (getBuffer st name).rank ∧
          (extendedLayoutFor (layoutToCommVolume od an prog st)
              (getBuffer st name).rank).dims.getD c MappingExpr.noneExpr = .dim h)) := by
  constructor
  · intro hext
    refine ⟨?_, rfl⟩
    simp [ExtendLayout, hsurj, hname, hext]
  · intro hext hlen
    have hus : (layoutToCommVolume od an prog st).useDomainSize =
        (getBuffer st name).rank := by
      rw [ltcv_use od an prog st l hl]
      exact hlen
    refine ⟨?_, ?_, ?_, ?_⟩
    · simp [ExtendLayout, hsurj, hname, hext]
    · have hr : (getBuffer (extendLayoutApply od an prog st name) name).rank =
          (extendLayoutNewLayout od an prog st name).dims.length := by
        simp [extendLayoutApply, getBuffer_setStorage, getBuffer_addDims_self]
      rw [hr]
      simp only [extendLayoutNewLayout, MappingAttr.Unify, MappingAttr.Compose,
        MappingAttr.Inverse, MappingAttr.PrependExprs, extendedLayoutFor,
        MappingAttr.AppendExprs, MappingAttr.ShiftRight, MappingAttr.GetIdentity, hl,
        Option.getD_some, List.length_zipWith, List.length_map, List.length_append,
        List.length_replicate, natsFrom_length]
      omega
    · exact extendedLayoutFor_surjective _ _ (ltcv_refs_bounded od an prog st) hus
    · intro c hc hhole
      exact extendedLayoutFor_holes_leading _ _ hus c hc hhole

def odW3 : ValueOperand := ⟨1, 5, ⟨1, [MappingExpr.dim 0]⟩, false⟩

def anW3 : IterationSpaceAnalysis :=
  ⟨fun i =>
      if i = 0 then ⟨[LoopName.fresh 0], ⟨1, [MappingExpr.dim 0]⟩⟩
      else ⟨[LoopName.fresh 1], ⟨1, [MappingExpr.dim 0]⟩⟩,
   fun _ _ m => m⟩

def progW3 : Program :=
  ⟨[⟨true, 1, Option.none, [5], [], []⟩,
    ⟨true, 1, Option.none, [6], [⟨1, 5, ⟨1, [MappingExpr.dim 0]⟩, false⟩], []⟩]⟩

def stW3 : StorageState :=
  ⟨[(5, ⟨some Space.memory, some 0, some ⟨1, []⟩⟩)], [(0, ⟨0, false, []⟩)], 1⟩

/-- Witness for C3 on an internal rank-0 buffer whose value is consumed
outside the producer's loop: ExtendLayout succeeds and the buffer rank
grows from 0 to 1. -/
theorem claim3_witness :
    ExtendLayout odW3 anW3 progW3 stW3 = .ok (extendLayoutApply odW3 anW3 progW3 stW3 0) ∧
    (getBuffer (extendLayoutApply odW3 anW3 progW3 stW3 0) 0).rank = 1 := by
  have h := (claim3_extend_layout odW3 anW3 progW3 stW3 0 ⟨1, []⟩ rfl rfl (by rfl)).2
    rfl rfl
  refine ⟨h.1, ?_⟩
  rw [h.2.1]
  rfl

/-! ### C9 -/

theorem mintLoops_snd : ∀ (exprs : List MappingExpr) (c : Nat),
    (mintLoops exprs c).2 = c + exprs.length := by
  intro exprs
  induction exprs with
  | nil => intro c; simp [mintLoops]
  | cons e t ih =>
    intro c
    simp [mintLoops, ih]
    omega

theorem mintLoops_fst_length : ∀ (exprs : List MappingExpr) (c : Nat),
    (mintLoops exprs c).1.length = exprs.length := by
  intro exprs
  induction exprs with
  | nil => intro c; rfl
  | cons e t ih => intro c; simp [mintLoops, ih]

theorem mintLoops_names : ∀ (exprs : List MappingExpr) (c : Nat),
    (mintLoops exprs c).1.map LoopAttr.name =
      (natsFrom c exprs.length).map LoopName.fresh := by
  intro exprs
  induction exprs with
  | nil => intro c; rfl
  | cons e t ih =>
    intro c
    simp only [mintLoops, List.map_cons, List.length_cons]
    rw [ih]
    rfl

theorem defaultNest_exprs_length (n : Nat) :
    ((MappingAttr.mk n []).Inverse.MakeSurjective.Inverse).dims.length = n := by
  simp only [MappingAttr.Inverse, MappingAttr.MakeSurjective, countHoles,
    List.length_map, natsFrom_length, List.countP_map]
  rw [List.countP_eq_length.mpr]
  · rw [natsFrom_length]
    simp
  · intro a _
    rfl

theorem getDefaultLoopNest_nil_length (n c : Nat) :
    (GetDefaultLoopNest n [] c).1.length = n := by
  simp only [GetDefaultLoopNest, List.map_nil, List.drop_zero, List.nil_append,
    List.length_nil]
  rw [mintLoops_fst_length, defaultNest_exprs_length]

theorem getDefaultLoopNest_nil_names (n c : Nat) :
    (GetDefaultLoopNest n [] c).1.map LoopAttr.name =
      (natsFrom c n).map LoopName.fresh := by
  simp only [GetDefaultLoopNest, List.map_nil, List.drop_zero, List.nil_append,
    List.length_nil]
  rw [mintLoops_names, defaultNest_exprs_length]

theorem getDefaultLoopNest_nil_snd (n c : Nat) :
    (GetDefaultLoopNest n [] c).2 = c + n := by
  simp only [GetDefaultLoopNest, List.map_nil, List.drop_zero, List.length_nil]
  rw [mintLoops_snd, defaultNest_exprs_length]

theorem defaultLoopNestOps_cons_pos (o : SairOpData) (rest : List SairOpData) (c : Nat)
    (ho : (o.isCompute && o.loopNest.isNone) = true) :
    defaultLoopNestOps (o :: rest) c =
      ({ o with loopNest := some (GetDefaultLoopNest o.domainSize [] c).1 } ::
          (defaultLoopNestOps rest (GetDefaultLoopNest o.domainSize [] c).2).1,
        (defaultLoopNestOps rest (GetDefaultLoopNest o.domainSize [] c).2).2) := by
  simp [defaultLoopNestOps, ho]

theorem defaultLoopNestOps_cons_neg (o : SairOpData) (rest : List SairOpData) (c : Nat)
    (ho : (o.isCompute && o.loopNest.isNone) = false) :
    defaultLoopNestOps (o :: rest) c =
      (o :: (defaultLoopNestOps rest c).1, (defaultLoopNestOps rest c).2) := by
  simp [defaultLoopNestOps, ho]

/-- C9: the default loop-nest pass assigns a loop-nest attribute only to
compute operations that lack one — every other operation is returned
unchanged — and each assigned default nest contains exactly one freshly
named loop per dimension of the operation's domain, the names being
consecutive freshly minted ones (hence pairwise distinct and colliding
with no pre-existing name). -/
theorem claim9_default_loop_nest :
    ∀ (ops : List SairOpData) (c k : Nat) (op : SairOpData),
      ops[k]? = some op →
      (¬(op.isCompute = true ∧ op.loopNest = Option.none) →
        (defaultLoopNestOps ops c).1[k]? = some op) ∧
      (op.isCompute = true → op.loopNest = Option.none →
        ∃ nest c0, c ≤ c0 ∧
          (defaultLoopNestOps ops c).1[k]? =
            some { op with loopNest := some nest } ∧
          nest.length = op.domainSize ∧
          nest.map LoopAttr.name = (natsFrom c0 op.domainSize).map LoopName.fresh) := by
  intro ops
  induction ops with
  | nil => intro c k op hop; simp at hop
  | cons o rest ih =>
    intro c k op hop
    cases hb : (o.isCompute && o.loopNest.isNone) with
    | true =>
      rw [defaultLoopNestOps_cons_pos o rest c hb]
      cases k with
      | zero =>
        rw [List.getElem?_cons_zero] at hop
        injection hop with hop
        subst hop
        constructor
        · intro hn
          exfalso
          exact hn ⟨(Bool.and_eq_true_iff.mp hb).1,
            Option.isNone_iff_eq_none.mp (Bool.and_eq_true_iff.mp hb).2⟩
        · intro _ _
          refine ⟨(GetDefaultLoopNest o.domainSize [] c).1, c, Nat.le_refl c,
            by rw [List.getElem?_cons_zero], ?_, ?_⟩
          · exact getDefaultLoopNest_nil_length o.domainSize c
          · exact getDefaultLoopNest_nil_names o.domainSize c
      | succ m =>
        rw [List.getElem?_cons_succ] at hop
        have ihm := ih (GetDefaultLoopNest o.domainSize [] c).2 m op hop
        constructor
        · intro hn
          rw [List.getElem?_cons_succ]
          exact ihm.1 hn
        · intro h1 h2
          obtain ⟨nest, c0, hc0, hidx, hlen, hnames⟩ := ihm.2 h1 h2
          refine ⟨nest, c0, ?_, ?_, hlen, hnames⟩
          · rw [getDefaultLoopNest_nil_snd] at hc0
            omega
          · rw [List.getElem?_cons_succ]
            exact hidx
    | false =>
      rw [defaultLoopNestOps_cons_neg o rest c hb]
      cases k with
      | zero =>
        rw [List.getElem?_cons_zero] at hop
        injection hop with hop
        subst hop
        constructor
        · intro _
          rw [List.getElem?_cons_zero]
        · intro h1 h2
          exfalso
          rw [h1, h2] at hb
          simp at hb
      | succ m =>
        rw [List.getElem?_cons_succ] at hop
        have ihm := ih c m op hop
        constructor
        · intro hn
          rw [List.getElem?_cons_succ]
          exact ihm.1 hn
        · intro h1 h2
          obtain ⟨nest, c0, hc0, hidx, hlen, hnames⟩ := ihm.2 h1 h2
          exact ⟨nest, c0, hc0, by rw [List.getElem?_cons_succ]; exact hidx, hlen, hnames⟩

def opW9 : SairOpData := ⟨true, 2, Option.none, [], [], []⟩

/-- Witness for C9: a two-dimensional compute operation without a
loop-nest attribute receives a nest of two consecutively named fresh
loops. -/
theorem claim9_witness :
    ∃ nest c0, 5 ≤ c0 ∧
      (defaultLoopNestOps [opW9] 5).1[0]? =
        some { opW9 with loopNest := some nest } ∧
      nest.length = opW9.domainSize ∧
      nest.map LoopAttr.name = (natsFrom c0 opW9.domainSize).map LoopName.fresh :=
  (claim9_default_loop_nest [opW9] 5 0 opW9 rfl).2 rfl rfl

/-! ### C7 -/

theorem le_foldr_max {α : Type} (f : α → Nat) :
    ∀ (l : List α) (a : α), a ∈ l →
      f a ≤ l.foldr (fun x acc => max (f x) acc) 0 := by
  intro l
  induction l with
  | nil => intro a ha; cases ha
  | cons x t ih =>
    intro a ha
    rcases List.mem_cons.mp ha with rfl | h
    · exact Nat.le_max_left _ _
    · exact Nat.le_trans (ih a h) (Nat.le_max_right _ _)

/-- C7: the relative order computed by the sequence analysis never places
a consumer before any of its producers — for every operation that
consumes a result of an earlier operation, the consumer's relative index
is at least the producer's. -/
theorem claim7_sequence_respects_dataflow (ops : List SeqOp) (i j : Nat)
    (hj : j ∈ (ops.getD i default).producers) (hlt : j < i) :
    relIndex ops j ≤ relIndex ops i := by
  have heq : relIndex ops i =
      max (baseIndex ops i)
        (((ops.getD i default).producers.filter (fun j => j < i)).attach.foldr
          (fun x acc => max (relIndex ops x.1) acc) 0) := by
    rw [relIndex]
  rw [heq]
  have hmem : j ∈ (ops.getD i default).producers.filter (fun j => j < i) := by
    rw [List.mem_filter]
    exact ⟨hj, by simpa using hlt⟩
  have hle : relIndex ops j ≤
      (((ops.getD i default).producers.filter (fun j => j < i)).attach.foldr
        (fun x acc => max (relIndex ops x.1) acc) 0) :=
    le_foldr_max (fun x => relIndex ops x.1) _ ⟨j, hmem⟩ (List.mem_attach _ _)
  exact Nat.le_trans hle (Nat.le_max_right _ _)

def opsW7 : List SeqOp := [⟨Option.none, []⟩, ⟨Option.none, [0]⟩]

/-- Witness for C7: operation 1 consumes the result of operation 0 and is
sequenced no earlier than it. -/
theorem claim7_witness :
    0 ∈ (opsW7.getD 1 default).producers ∧ 0 < 1 ∧
    relIndex opsW7 0 ≤ relIndex opsW7 1 :=
  ⟨by decide, by decide,
   claim7_sequence_respects_dataflow opsW7 1 0 (by decide) (by decide)⟩

end Sair
